import Mathlib

/-!
Verification of the NanoParticleTools machine-learning data pipeline
(`machine_learning/models/_data.py` and
`machine_learning/models/subdivision_invariance/dopant_pair.py`).

The Python code is shallowly embedded: floating-point values become exact
rationals (ℚ), tensors become lists, and the seeded pseudo-random generator of
the augmenter becomes an explicit draw oracle whose support is constrained by
hypotheses.  Exceptions raised by Python/torch become `Except` errors.
-/

namespace NPT

/-- Python `int(...)` applied to a float: truncation toward zero. -/
def pyInt (q : ℚ) : ℤ := if q < 0 then ⌈q⌉ else ⌊q⌋

/-- Translate a (possibly negative) Python slice bound into a drop/take count
for a sequence of length `len`: negative indices count from the end and are
clamped at 0. -/
def pyBound (len : ℕ) (i : ℤ) : ℕ := if i < 0 then ((len : ℤ) + i).toNat else i.toNat

/-- Python `l[i:]`. -/
def pySliceFrom (l : List ℚ) (i : ℤ) : List ℚ := l.drop (pyBound l.length i)

/-- Python `l[:i]`. -/
def pySliceTo (l : List ℚ) (i : ℤ) : List ℚ := l.take (pyBound l.length i)

/-- Model of `torch.linspace(a, b, steps)`: `steps` evenly spaced points from `a` to `b`
inclusive (a single point is placed at `a`). -/
def linspaceQ (a b : ℚ) (steps : ℕ) : List ℚ :=
  if steps = 1 then [a]
  else (List.range steps).map (fun i : ℕ => a + (i : ℚ) * (b - a) / ((steps : ℚ) - 1))

/-- Round half to even (the rounding mode of `np.round`). -/
def roundHalfEven (q : ℚ) : ℤ :=
  let f := ⌊q⌋
  if q - f < 1/2 then f
  else if 1/2 < q - f then f + 1
  else if 2 ∣ f then f else f + 1

/-- Model of `np.round(q, 1)`: round to one decimal place, half to even. -/
def round10 (q : ℚ) : ℚ := (roundHalfEven (q * 10) : ℚ) / 10

/-! ## Spectrum rebinner (`EnergyLabelProcessor.process_doc`, `_data.py` 99-156) -/

/-- Errors surfaced by the label processor: `indexError` models the Python
`IndexError` from `x[1]` on a spectrum shorter than 2; `shapeMismatch` models
the torch errors from `reshape`/elementwise product on incompatible shapes;
`unsupportedResolution` models the `RuntimeError` raised at line 126 when the
document's resolution is finer than requested. -/
inductive PErr where
  | indexError
  | shapeMismatch
  | unsupportedResolution
deriving DecidableEq

/-- Lines 101-126 of `_data.py`: compute the step from the first two x values,
then pass the spectrum through unchanged when its length already equals the
requested `output_size`, rebin by the replicate/reshape/sum scheme when it is
longer, and fail when it is shorter.  Returns the (possibly new) x axis, the
(possibly new) intensity values and the original step. -/
def rebinStep (output_size : ℕ) (xs ys : List ℚ) :
    Except PErr (List ℚ × List ℚ × ℚ) :=
  if xs.length < 2 then .error .indexError
  else
    let step := xs.getD 1 0 - xs.getD 0 0
    if xs.length = output_size then .ok (xs, ys, step)
    else if output_size ≤ xs.length then
      -- multiplier = int(lcm(n, m) / n)
      let multiplier := Nat.lcm xs.length output_size / xs.length
      -- spectrum.expand(multiplier, -1).moveaxis(0, 1) replicates each
      -- intensity value `multiplier` times consecutively (row-major order)
      let replicated := ys.flatMap (fun v => List.replicate multiplier v)
      -- reshape(output_size, -1) requires a positive, evenly divisible size
      if output_size = 0 ∨ replicated.length = 0 ∨
          replicated.length % output_size ≠ 0 then .error .shapeMismatch
      else
        let group := replicated.length / output_size
        let summed := (List.range output_size).map
          (fun j => ((replicated.drop (j * group)).take group).sum)
        -- _spectrum * x.size(0) / (multiplier * output_size)
        let newY := summed.map
          (fun v => v * xs.length / ((multiplier : ℚ) * output_size))
        let lower := xs.getD 0 0 - step / 2
        let upper := (xs.getLast?).getD 0 + step / 2
        .ok (linspaceQ lower upper output_size, newY, step)
    else .error .unsupportedResolution

/-- The dictionary returned by `EnergyLabelProcessor.process_doc` (the
transcendental `log_y` field and the constant `log_const` are omitted: no
verified property mentions them). -/
structure SpecOut where
  spectra_x : List ℚ
  y : List ℚ
  idx_zero : ℤ
  n_absorbed : ℚ
  n_emitted : ℚ
  e_absorbed : ℚ
  e_emitted : ℚ
deriving DecidableEq

/-- Model of `EnergyLabelProcessor.process_doc` (`_data.py` 99-156).  `smooth` stands for
the external `scipy.ndimage.gaussian_filter1d` collaborator; it is applied only
when `gaussian_filter > 0`.  The photon and energy sums are taken over
`spectrum` (the pre-smoothing intensity), sliced with Python semantics at
`idx_zero`. -/
def process_doc (output_size : ℕ) (spectrum_range : ℚ × ℚ) (gaussian_filter : ℚ)
    (smooth : List ℚ → ℚ → List ℚ) (xs ys : List ℚ) : Except PErr SpecOut :=
  match rebinStep output_size xs ys with
  | .error e => .error e
  | .ok (x, spectrum, step) =>
    let y := if 0 < gaussian_filter then smooth spectrum gaussian_filter else spectrum
    -- idx_zero = int(np.floor(0 - spectrum_range[0]) / step): note that the
    -- floor is applied to the offset alone, before the division by step
    let idx_zero := pyInt ((⌊(0 : ℚ) - spectrum_range.1⌋ : ℚ) / step)
    let n_absorbed := (pySliceFrom spectrum idx_zero).sum
    let n_emitted := (pySliceTo spectrum idx_zero).sum
    -- total_energy = spectrum * x: elementwise product, which torch rejects
    -- for mismatched 1-D sizes
    if x.length ≠ spectrum.length then .error .shapeMismatch
    else
      let total_energy := List.zipWith (· * ·) spectrum x
      .ok { spectra_x := x
            y := y
            idx_zero := idx_zero
            n_absorbed := n_absorbed
            n_emitted := n_emitted
            e_absorbed := (pySliceFrom total_energy idx_zero).sum
            e_emitted := (pySliceTo total_energy idx_zero).sum }

/-! ## Dopant-pair graph builder (`dopant_pair.py`) -/

/-- A dopant specification tuple `(constraint_index, concentration, element,
site_label)` exactly as in the Python source. -/
abbrev DopantSpec := ℕ × ℚ × String × String

/-- The payload of a dopant specification without its constraint index
(`_tuple[1:]` in the source). -/
abbrev Payload := ℚ × String × String

/-- Model of `DataProcessor.get_radii` (`_data.py` 55-63): inner radius is the previous
constraint's radius (0 for the first constraint), outer radius is this
constraint's radius.  Constraints are modelled by their radius values. -/
def get_radii (idx : ℕ) (constraints : List ℚ) : ℚ × ℚ :=
  ((if idx = 0 then 0 else constraints.getD (idx - 1) 0), constraints.getD idx 0)

/-- Model of `itertools.combinations_with_replacement(l, 2)` in iteration order. -/
def cwr2 (l : List String) : List (String × String) :=
  l.enum.flatMap (fun p => (l.drop p.1).map (fun b => (p.2, b)))

/-- Model of the `GraphFeatureProcessor.edge_type_map` lookup (`dopant_pair.py` 49-63): the
element pair `(a, b)` and its reflection map to the index of the unordered pair
in the combinations-with-replacement enumeration. -/
def edgeTypeId (possible : List String) (a b : String) : ℕ :=
  (cwr2 possible).findIdx (fun p => (p.1 == a && p.2 == b) || (p.1 == b && p.2 == a))

/-- The dictionary returned by `GraphFeatureProcessor.get_node_features`. -/
structure NodeFeats where
  x_dopant : List ℚ
  types : List ℕ
  radii_dopant : List (ℚ × ℚ)
  node_dopant_index : List (ℕ × ℕ)
deriving DecidableEq

/-- Model of `GraphFeatureProcessor.get_node_features` (`dopant_pair.py` 65-103): one
node per ordered pair of dopant specifications (nested `enumerate` loops, so
`node_dopant_index` lists the index pairs in row-major order), plus per-dopant
concentration and radius arrays for index-based lookup. -/
def get_node_features (possible : List String) (constraints : List ℚ)
    (specs : List DopantSpec) : NodeFeats :=
  { x_dopant := specs.map (fun s => s.2.1)
    types := specs.flatMap (fun si => specs.map (fun sj => edgeTypeId possible si.2.2.1 sj.2.2.1))
    radii_dopant := specs.map (fun s => get_radii s.1 constraints)
    node_dopant_index := (List.range specs.length).flatMap
      (fun i => (List.range specs.length).map (fun j => (i, j))) }

/-- Error type: `dimOutOfRange` models the torch `RuntimeError` raised by `.flip(1)` (and
`[:, 0]`) on a tensor with fewer than 2 dimensions. -/
inductive TErr where
  | dimOutOfRange
deriving DecidableEq

/-- The column-wise shared-dopant test of `get_edge_features` lines 122-126:
`(i == k or i == l) or (j == l or j == k)` for index pairs `(i, j)`, `(k, l)`. -/
def sharesBool (p q : ℕ × ℕ) : Bool :=
  ((p.1 == q.1) || (p.1 == q.2)) || ((p.2 == q.2) || (p.2 == q.1))

/-- Model of `GraphFeatureProcessor.get_edge_features` (`dopant_pair.py` 105-128): keep,
from the cartesian product of node indices, the ordered pairs whose underlying
dopant-index pairs share an entry.  When the dopant-specification list is empty,
`torch.tensor([])` is 1-dimensional and `.flip(1)` raises, hence the guard. -/
def get_edge_features (num_nodes : ℕ) (ids : List (ℕ × ℕ)) :
    Except TErr (List (ℕ × ℕ)) :=
  if ids.isEmpty then .error .dimOutOfRange
  else .ok (((List.range num_nodes).flatMap
      (fun i => (List.range num_nodes).map (fun j => (i, j)))).filter
    (fun e => sharesBool (ids.getD e.1 (0, 0)) (ids.getD e.2 (0, 0))))

/-- The dictionary returned by `GraphFeatureProcessor.get_data_graph`. -/
structure GraphOut where
  nodes : NodeFeats
  edge_index : List (ℕ × ℕ)
deriving DecidableEq

/-- Model of `GraphFeatureProcessor.get_data_graph` (`dopant_pair.py` 130-138). -/
def get_data_graph (possible : List String) (constraints : List ℚ)
    (specs : List DopantSpec) : Except TErr GraphOut :=
  let nf := get_node_features possible constraints specs
  match get_edge_features nf.types.length nf.node_dopant_index with
  | .error e => .error e
  | .ok ei => .ok ⟨nf, ei⟩

/-! ## Template augmenter (`UCNPAugmenter`, `_data.py` 589-661)

The seeded `np.random.default_rng` is modelled by an explicit draw oracle: its
fields record which constraints the generator selected for subdivision, the raw
draw behind `rng.integers(1, max_subdivisions)`, and the grid indices chosen by
`rng.choice(..., replace=False)`.  Hypotheses on theorems restrict the oracle
to the support the numpy generator can actually produce. -/

/-- The outcome of all random draws of one `generate_single_augment` call. -/
structure AugDraws where
  sel : ℕ → Bool
  nDivRaw : ℕ → ℕ
  pick : ℕ → ℕ → ℕ

/-- Model of `rng.integers(1, maxSub)`: a value in `[1, maxSub)`, here obtained from the
oracle's raw draw. -/
def nDivOf (maxSub : ℕ) (d : AugDraws) (i : ℕ) : ℕ := 1 + d.nDivRaw i % (maxSub - 1)

/-- Number of elements of `np.arange(lo, hi, inc)`. -/
def gridLen (lo hi inc : ℚ) : ℕ := ⌈(hi - lo) / inc⌉.toNat

/-- Model of `np.arange(lo, hi, inc)`: `lo + k * inc` for `k` below `gridLen`. -/
def arangeQ (lo hi inc : ℚ) : List ℚ :=
  (List.range (gridLen lo hi inc)).map (fun k : ℕ => lo + (k : ℚ) * inc)

/-- Model of `sorted(rng.choice(np.arange(lo, hi, inc), nd, replace=False))` (`_data.py`
line 644): the oracle names `nd` grid indices, which are mapped through the
grid and sorted ascending. -/
def chosenRadii (lo hi inc : ℚ) (nd : ℕ) (pick : ℕ → ℕ) : List ℚ :=
  List.insertionSort (· ≤ ·)
    ((List.range nd).map (fun j => (arangeQ lo hi inc).getD (pick j) 0))

/-- Model of `min_radius = 0 if i == 0 else constraints[i-1].radius` (line 639). -/
def shellLo (constraints : List ℚ) (i : ℕ) : ℚ :=
  if i = 0 then 0 else constraints.getD (i - 1) 0

/-- Model of `dopant_specification_by_layer[i]` (lines 623-628): the payloads of the
specifications assigned to constraint `i`, in input order.  The dictionary is
pre-populated with every constraint index, so lookups inside the main loop
always succeed (the `except` branches at lines 628 and 650-652 are unreachable
for constraint indices below `len(constraints)`). -/
def layerSpecs (specs : List DopantSpec) (i : ℕ) : List Payload :=
  (specs.filter (fun s => s.1 == i)).map (fun s => s.2)

/-- Model of `[(constraint_counter, *spec) for spec in ...]` (lines 649, 658). -/
def addLayerSpecs (byLayer : List Payload) (c : ℕ) : List (ℕ × Payload) :=
  byLayer.map (fun p => (c, p))

/-- Loop state of `generate_single_augment`: the accumulated
`new_constraints`, `new_dopant_specification` and `constraint_counter`. -/
structure AugState where
  cons : List ℚ
  specs : List (ℕ × Payload)
  counter : ℕ
deriving DecidableEq

/-- The inner `for r in radii` loop (lines 646-654): append one rounded
sub-constraint per radius and replicate the layer's specifications at the
running counter. -/
def subdivFold (byL : List Payload) (radii : List ℚ) (st : AugState) : AugState :=
  radii.foldl
    (fun s r =>
      ⟨s.cons ++ [round10 r], s.specs ++ addLayerSpecs byL s.counter, s.counter + 1⟩)
    st

/-- One iteration of the `for i in range(n_constraints)` loop (lines 637-660):
optionally subdivide constraint `i`, then re-append the original constraint and
its specifications. -/
def augLayer (constraints : List ℚ) (inc : ℚ) (maxSub : ℕ) (d : AugDraws)
    (byL : ℕ → List Payload) (i : ℕ) (st : AugState) : AugState :=
  let st1 :=
    if d.sel i then
      subdivFold (byL i)
        (chosenRadii (shellLo constraints i) (constraints.getD i 0) inc
          (nDivOf maxSub d i) (d.pick i)) st
    else st
  ⟨st1.cons ++ [constraints.getD i 0],
   st1.specs ++ addLayerSpecs (byL i) st1.counter,
   st1.counter + 1⟩

/-- Model of `UCNPAugmenter.generate_single_augment` (`_data.py` 613-661).  The
`max_subdivisions` and `subdivision_increment` parameters are shadowed by the
unconditional reassignments at lines 619-620 before any use, exactly as in the
source. -/
def generate_single_augment (constraints : List ℚ) (specs : List DopantSpec)
    (max_subdivisions : ℕ) (subdivision_increment : ℚ) (d : AugDraws) :
    List ℚ × List (ℕ × Payload) :=
  let max_subdivisions := 3
  let subdivision_increment := (1 : ℚ) / 10
  let final := (List.range constraints.length).foldl
    (fun st i => augLayer constraints subdivision_increment max_subdivisions d
      (layerSpecs specs) i st)
    ⟨[], [], 0⟩
  (final.cons, final.specs)

/-- Number of constraints emitted for original constraint `i`: the chosen
subdivisions (when selected) plus the original constraint itself. -/
def kOf (d : AugDraws) (i : ℕ) : ℕ := (if d.sel i then nDivOf 3 d i else 0) + 1

/-- Index in the rebuilt constraint list at which original constraint `i`'s
block of sub-constraints begins. -/
def startIdx (d : AugDraws) (i : ℕ) : ℕ := ((List.range i).map (kOf d)).sum

/-- Total number of subdivisions applied across all constraints. -/
def totalSubdiv (d : AugDraws) (n : ℕ) : ℕ :=
  ((List.range n).map (fun i => if d.sel i then nDivOf 3 d i else 0)).sum

/-- The membership predicate used to count output specifications that landed in
original constraint `i`'s block of the rebuilt constraint list. -/
def inBlockWith (d : AugDraws) (i : ℕ) (p : Payload) (e : ℕ × Payload) : Bool :=
  decide (startIdx d i ≤ e.1) && decide (e.1 < startIdx d i + kOf d i) && decide (e.2 = p)

/-! ## General-purpose lemmas -/

instance {ε α : Type _} [DecidableEq ε] [DecidableEq α] : DecidableEq (Except ε α) :=
  fun x y =>
    match x, y with
    | .ok a, .ok b =>
      if h : a = b then .isTrue (by rw [h]) else .isFalse (fun he => h (Except.ok.inj he))
    | .error a, .error b =>
      if h : a = b then .isTrue (by rw [h]) else .isFalse (fun he => h (Except.error.inj he))
    | .ok _, .error _ => .isFalse (fun he => Except.noConfusion he)
    | .error _, .ok _ => .isFalse (fun he => Except.noConfusion he)

/-! ## Spectrum rebinner: properties -/

/-- Any successful `rebinStep` reports the original document's step,
`x[1] - x[0]`. -/
theorem rebinStep_ok_step {m : ℕ} {xs ys x' y' : List ℚ} {st : ℚ}
    (h : rebinStep m xs ys = .ok (x', y', st)) :
    st = xs.getD 1 0 - xs.getD 0 0 := by
  simp only [rebinStep] at h
  split_ifs at h <;>
    first
      | exact Except.noConfusion h
      | (injection h with h'; injection h' with ha hb; injection hb with hc hd
         exact hd.symm)

/-- C1.  Counterexample to the claimed scenario: rebinning `x=[-2,-1,0,1]`,
`y=[1,2,3,4]` to 2 bins gives intensities `[6, 14]` (not `[3, 7]`) and the new
x axis `[-5/2, 3/2]` (not `[-3/2, 1/2]`): the replication factor is
`lcm(4,2)/4 = 1`, so the rescale factor is `4/(1*2) = 2`, and `torch.linspace`
places the two new points at the extended bounds themselves. -/
theorem C1_counterexample :
    rebinStep 2 [-2, -1, 0, 1] [1, 2, 3, 4] = .ok ([-5/2, 3/2], [6, 14], 1) ∧
    ([6, 14] : List ℚ) ≠ [3, 7] ∧ ([-5/2, 3/2] : List ℚ) ≠ [-3/2, 1/2] := by
  refine ⟨?_, by norm_num, by norm_num⟩
  norm_num [rebinStep, linspaceQ, Nat.lcm, List.range_succ]

/-- C1 (amended).  Rebinning `x=[-2,-1,0,1]`, `y=[1,2,3,4]` to 2 bins produces
grouped sums `[3, 7]` rescaled by `n/(k*m) = 4/(1*2) = 2`, giving `[6, 14]`,
and the new x axis `[-5/2, 3/2]` spanning the half-step-extended bounds; the
distance between the two new points is 4. -/
theorem C1_scenarioA :
    rebinStep 2 [-2, -1, 0, 1] [1, 2, 3, 4] = .ok ([-5/2, 3/2], [6, 14], 1) ∧
    (3/2 : ℚ) - (-5/2) = 4 := by
  refine ⟨?_, by norm_num⟩
  norm_num [rebinStep, linspaceQ, Nat.lcm, List.range_succ]

/-- C5.  A spectrum with a well-defined step (length at least 2) that is
shorter than the requested bin count is rejected with the resolution error
rather than upsampled. -/
theorem C5_upsampling_rejected (m : ℕ) (r : ℚ × ℚ) (σ : ℚ)
    (smooth : List ℚ → ℚ → List ℚ) (xs ys : List ℚ)
    (h2 : 2 ≤ xs.length) (hm : xs.length < m) :
    process_doc m r σ smooth xs ys = .error .unsupportedResolution := by
  have h1 : ¬ xs.length < 2 := by omega
  have h2' : ¬ xs.length = m := by omega
  have h3 : ¬ m ≤ xs.length := by omega
  simp only [process_doc, rebinStep, h1, h2', h3, if_false]

/-- C5 witness: a 10-bin spectrum rebinned to 20 bins raises the resolution
error. -/
theorem C5_witness :
    process_doc 20 (-1000, 0) 0 (fun l _ => l) [0, 1, 2, 3, 4, 5, 6, 7, 8, 9] [] =
      .error .unsupportedResolution :=
  C5_upsampling_rejected 20 (-1000, 0) 0 (fun l _ => l) _ []
    (by simp) (by simp)

/-- C3.  Counterexample to the claimed split-index formula: with crop range
lower bound `-1/2` and step `1/4`, the code computes
`int(np.floor(1/2) / (1/4)) = 0`, whereas `floor((0 - range_min)/step) = 2`. -/
theorem C3_counterexample :
    process_doc 4 (-1/2, 0) 0 (fun l _ => l) [0, 1/4, 1/2, 3/4] [1, 2, 3, 4] =
      .ok ⟨[0, 1/4, 1/2, 3/4], [1, 2, 3, 4], 0, 10, 0, 5, 0⟩ ∧
    (0 : ℤ) ≠ ⌊((0 : ℚ) - (-1/2)) / (1/4)⌋ := by
  constructor
  · norm_num [process_doc, rebinStep, pyInt, pySliceFrom, pySliceTo, pyBound]
  · norm_num

/-- C3 (amended).  The split index actually computed is
`int(np.floor(0 - range_min) / step)`: the offset `0 - range_min` is floored
first, the result is divided by the document's step, and the quotient is
truncated toward zero. -/
theorem C3_split_index (m : ℕ) (r : ℚ × ℚ) (σ : ℚ)
    (smooth : List ℚ → ℚ → List ℚ) (xs ys : List ℚ) (out : SpecOut)
    (h : process_doc m r σ smooth xs ys = .ok out) :
    out.idx_zero = pyInt ((⌊(0 : ℚ) - r.1⌋ : ℚ) / (xs.getD 1 0 - xs.getD 0 0)) := by
  cases hr : rebinStep m xs ys with
  | error e =>
    simp only [process_doc, hr] at h
    exact Except.noConfusion h
  | ok t =>
    obtain ⟨x', y', st⟩ := t
    simp only [process_doc, hr] at h
    rw [rebinStep_ok_step hr] at h
    split_ifs at h <;>
      first
        | exact Except.noConfusion h
        | (have he := Except.ok.inj h; subst he; rfl)

/-- C3 witness: a run in which the amended formula is exercised. -/
theorem C3_split_index_witness :
    SpecOut.idx_zero ⟨[0, 1/4, 1/2, 3/4], [1, 2, 3, 4], 0, 10, 0, 5, 0⟩ =
      pyInt ((⌊(0 : ℚ) - (-1/2 : ℚ)⌋ : ℚ) /
        (([0, 1/4, 1/2, 3/4] : List ℚ).getD 1 0 - ([0, 1/4, 1/2, 3/4] : List ℚ).getD 0 0)) :=
  C3_split_index 4 (-1/2, 0) 0 (fun l _ => l) [0, 1/4, 1/2, 3/4] [1, 2, 3, 4] _
    (by norm_num [process_doc, rebinStep, pyInt, pySliceFrom, pySliceTo, pyBound])

/-- C7.  The photon counts are sums over the pre-smoothing rebinned intensity:
whatever the smoothing collaborator does when `σ > 0`, `n_absorbed` and
`n_emitted` are the slice sums of the unsmoothed rebinned values, while the `y`
output is the smoothed intensity exactly when `σ > 0`. -/
theorem C7_photon_counts (m : ℕ) (r : ℚ × ℚ) (σ : ℚ)
    (smooth : List ℚ → ℚ → List ℚ) (xs ys x' y' : List ℚ) (st : ℚ) (out : SpecOut)
    (h : process_doc m r σ smooth xs ys = .ok out)
    (hr : rebinStep m xs ys = .ok (x', y', st)) :
    out.n_absorbed = (pySliceFrom y' out.idx_zero).sum ∧
    out.n_emitted = (pySliceTo y' out.idx_zero).sum ∧
    (0 < σ → out.y = smooth y' σ) ∧
    (¬ 0 < σ → out.y = y') := by
  simp only [process_doc, hr] at h
  split_ifs at h <;>
    first
      | exact Except.noConfusion h
      | (have he := Except.ok.inj h; subst he
         exact ⟨rfl, rfl, fun hσ => by simp_all, fun hσ => by simp_all⟩)

/-- C7 witness: with `σ = 1` and a smoothing collaborator that shifts every
value by 1, the photon counts still sum the unsmoothed rebinned intensity
`[6, 14]` while the `y` output is the smoothed `[7, 15]`. -/
theorem C7_witness :
    SpecOut.n_absorbed ⟨[-5/2, 3/2], [7, 15], 2, 0, 20, 0, 6⟩ =
      (pySliceFrom [6, 14] (SpecOut.idx_zero ⟨[-5/2, 3/2], [7, 15], 2, 0, 20, 0, 6⟩)).sum ∧
    SpecOut.n_emitted ⟨[-5/2, 3/2], [7, 15], 2, 0, 20, 0, 6⟩ =
      (pySliceTo [6, 14] (SpecOut.idx_zero ⟨[-5/2, 3/2], [7, 15], 2, 0, 20, 0, 6⟩)).sum ∧
    ((0 : ℚ) < 1 → SpecOut.y ⟨[-5/2, 3/2], [7, 15], 2, 0, 20, 0, 6⟩ =
      (fun (l : List ℚ) (_ : ℚ) => l.map (· + 1)) [6, 14] 1) ∧
    (¬ (0 : ℚ) < 1 → SpecOut.y ⟨[-5/2, 3/2], [7, 15], 2, 0, 20, 0, 6⟩ = [6, 14]) :=
  C7_photon_counts 2 (-2, 0) 1 (fun l _ => l.map (· + 1)) [-2, -1, 0, 1] [1, 2, 3, 4]
    [-5/2, 3/2] [6, 14] 1 _
    (by norm_num [process_doc, rebinStep, linspaceQ, Nat.lcm, List.range_succ, pyInt,
      pySliceFrom, pySliceTo, pyBound, Int.toNat])
    (by norm_num [rebinStep, linspaceQ, Nat.lcm, List.range_succ])

/-! ## Dopant-pair graph builder: properties -/

/-- The length of a `flatMap` whose blocks all have length `k`. -/
theorem length_flatMap_const {α β : Type _} (l : List α) (f : α → List β) (k : ℕ)
    (hf : ∀ a ∈ l, (f a).length = k) : (l.flatMap f).length = l.length * k := by
  induction l with
  | nil => simp
  | cons a as ih =>
    rw [List.flatMap_cons, List.length_append, hf a (by simp),
      ih (fun x hx => hf x (by simp [hx])), List.length_cons, Nat.succ_mul]
    omega

/-- Membership in the row-major cartesian product of `range n` with itself. -/
theorem mem_cartesian (n p q : ℕ) :
    (p, q) ∈ (List.range n).flatMap (fun i => (List.range n).map (fun j => (i, j))) ↔
      p < n ∧ q < n := by
  simp only [List.mem_flatMap, List.mem_map, List.mem_range, Prod.mk.injEq]
  constructor
  · rintro ⟨a, ha, b, hb, rfl, rfl⟩
    exact ⟨ha, hb⟩
  · rintro ⟨hp, hq⟩
    exact ⟨p, hp, q, hq, rfl, rfl⟩

theorem node_dopant_index_length (possible : List String) (constraints : List ℚ)
    (specs : List DopantSpec) :
    (get_node_features possible constraints specs).node_dopant_index.length =
      specs.length * specs.length := by
  simp only [get_node_features]
  rw [length_flatMap_const _ _ specs.length (fun a _ => by simp), List.length_range]

theorem types_length (possible : List String) (constraints : List ℚ)
    (specs : List DopantSpec) :
    (get_node_features possible constraints specs).types.length =
      specs.length * specs.length := by
  simp only [get_node_features]
  exact length_flatMap_const _ _ specs.length (fun a _ => by simp)

/-- The shared-dopant test is symmetric in its two index pairs. -/
theorem sharesBool_comm (a b : ℕ × ℕ) : sharesBool a b = sharesBool b a := by
  rw [Bool.eq_iff_iff]
  simp only [sharesBool, Bool.or_eq_true, beq_iff_eq]
  omega

/-- C6.  The graph built from `k` dopant specifications (with valid constraint
indices and known elements) has exactly `k²` nodes, one per ordered pair of
dopant-specification indices including the diagonal. -/
theorem C6_node_count (possible : List String) (constraints : List ℚ)
    (specs : List DopantSpec)
    (hel : ∀ s ∈ specs, s.2.2.1 ∈ possible)
    (hidx : ∀ s ∈ specs, s.1 < constraints.length) (i j : ℕ) :
    (get_node_features possible constraints specs).types.length = specs.length ^ 2 ∧
    ((i, j) ∈ (get_node_features possible constraints specs).node_dopant_index ↔
      i < specs.length ∧ j < specs.length) := by
  constructor
  · rw [types_length, sq]
  · exact mem_cartesian _ i j

/-- C6 witness: two dopant specifications yield 4 nodes and the node `(0, 1)`
is present. -/
theorem C6_witness :
    (get_node_features ["Yb", "Er", "Nd"] [1, 2]
        [(0, 1, "Yb", "s"), (1, 2, "Er", "s")]).types.length =
      ([(0, 1, "Yb", "s"), (1, 2, "Er", "s")] : List DopantSpec).length ^ 2 ∧
    ((0, 1) ∈ (get_node_features ["Yb", "Er", "Nd"] [1, 2]
        [(0, 1, "Yb", "s"), (1, 2, "Er", "s")]).node_dopant_index ↔
      0 < ([(0, 1, "Yb", "s"), (1, 2, "Er", "s")] : List DopantSpec).length ∧
      1 < ([(0, 1, "Yb", "s"), (1, 2, "Er", "s")] : List DopantSpec).length) :=
  C6_node_count ["Yb", "Er", "Nd"] [1, 2] [(0, 1, "Yb", "s"), (1, 2, "Er", "s")]
    (by decide) (by decide) 0 1

/-- C4.  Counterexample to the no-fail claim: on an empty
dopant-specification list the builder raises the dimension error coming from
`.flip(1)` on the 1-dimensional empty index tensor, instead of returning an
empty graph. -/
theorem C4_counterexample :
    get_data_graph ["Yb", "Er", "Nd"] [] [] = .error .dimOutOfRange := rfl

/-- C4 (amended).  On an empty dopant-specification list the node builder does
produce empty (0-node) features, but edge construction fails with the
dimension error, so `get_data_graph` fails rather than returning a degenerate
0-node, 0-edge graph. -/
theorem C4_empty_input (possible : List String) (constraints : List ℚ) :
    get_node_features possible constraints [] = ⟨[], [], [], []⟩ ∧
    get_data_graph possible constraints [] = .error .dimOutOfRange :=
  ⟨rfl, rfl⟩

/-- C2.  Edge characterization: for any successfully built graph, the ordered
pair `(p, q)` of node indices is an edge iff the two nodes' dopant-index pairs
share an index in either order; consequently the edge set is symmetric. -/
theorem C2_edge_rule (possible : List String) (constraints : List ℚ)
    (specs : List DopantSpec) (g : GraphOut)
    (hg : get_data_graph possible constraints specs = .ok g)
    (hel : ∀ s ∈ specs, s.2.2.1 ∈ possible)
    (hidx : ∀ s ∈ specs, s.1 < constraints.length)
    (p q : ℕ)
    (hp : p < g.nodes.node_dopant_index.length)
    (hq : q < g.nodes.node_dopant_index.length) :
    ((p, q) ∈ g.edge_index ↔
      ((g.nodes.node_dopant_index.getD p (0, 0)).1 =
          (g.nodes.node_dopant_index.getD q (0, 0)).1 ∨
       (g.nodes.node_dopant_index.getD p (0, 0)).1 =
          (g.nodes.node_dopant_index.getD q (0, 0)).2 ∨
       (g.nodes.node_dopant_index.getD p (0, 0)).2 =
          (g.nodes.node_dopant_index.getD q (0, 0)).1 ∨
       (g.nodes.node_dopant_index.getD p (0, 0)).2 =
          (g.nodes.node_dopant_index.getD q (0, 0)).2)) ∧
    ((p, q) ∈ g.edge_index → (q, p) ∈ g.edge_index) := by
  by_cases hemp : (get_node_features possible constraints specs).node_dopant_index.isEmpty
  · simp only [get_data_graph, get_edge_features, hemp, if_true] at hg
    exact Except.noConfusion hg
  · simp only [Bool.not_eq_true] at hemp
    simp only [get_data_graph, get_edge_features, hemp, Bool.false_eq_true, if_false] at hg
    have he := Except.ok.inj hg
    subst he
    simp only at hp hq ⊢
    have hlen := types_length possible constraints specs
    have hlen' := node_dopant_index_length possible constraints specs
    have hp' : p < (get_node_features possible constraints specs).types.length := by omega
    have hq' : q < (get_node_features possible constraints specs).types.length := by omega
    have hiff : ∀ a b : ℕ,
        a < (get_node_features possible constraints specs).types.length →
        b < (get_node_features possible constraints specs).types.length →
        ((a, b) ∈ (((List.range (get_node_features possible constraints specs).types.length).flatMap
            (fun i => (List.range (get_node_features possible constraints specs).types.length).map
              (fun j => (i, j)))).filter
          (fun e => sharesBool
            ((get_node_features possible constraints specs).node_dopant_index.getD e.1 (0, 0))
            ((get_node_features possible constraints specs).node_dopant_index.getD e.2 (0, 0)))) ↔
          sharesBool
            ((get_node_features possible constraints specs).node_dopant_index.getD a (0, 0))
            ((get_node_features possible constraints specs).node_dopant_index.getD b (0, 0)) = true) := by
      intro a b ha hb
      rw [List.mem_filter, mem_cartesian]
      simp [ha, hb]
    constructor
    · rw [hiff p q hp' hq']
      simp only [sharesBool, Bool.or_eq_true, beq_iff_eq]
      omega
    · intro hmem
      rw [hiff p q hp' hq'] at hmem
      rw [hiff q p hq' hp', sharesBool_comm]
      exact hmem

/-- C2 witness: scenario B with two dopant specifications.  Node 1 is the pair
`(0, 1)` and node 3 the pair `(1, 1)`; they share dopant index 1 and the edge
`(1, 3)` is present together with its mirror. -/
theorem C2_witness :
    (((1 : ℕ), (3 : ℕ)) ∈ (GraphOut.mk
        (get_node_features ["Yb", "Er", "Nd"] [1, 2] [(0, 1, "Yb", "s"), (1, 2, "Er", "s")])
        [(0, 0), (0, 1), (0, 2), (1, 0), (1, 1), (1, 2), (1, 3), (2, 0), (2, 1), (2, 2),
         (2, 3), (3, 1), (3, 2), (3, 3)]).edge_index ↔
      (((GraphOut.mk
        (get_node_features ["Yb", "Er", "Nd"] [1, 2] [(0, 1, "Yb", "s"), (1, 2, "Er", "s")])
        [(0, 0), (0, 1), (0, 2), (1, 0), (1, 1), (1, 2), (1, 3), (2, 0), (2, 1), (2, 2),
         (2, 3), (3, 1), (3, 2), (3, 3)]).nodes.node_dopant_index.getD 1 (0, 0)).1 =
          ((GraphOut.mk
        (get_node_features ["Yb", "Er", "Nd"] [1, 2] [(0, 1, "Yb", "s"), (1, 2, "Er", "s")])
        [(0, 0), (0, 1), (0, 2), (1, 0), (1, 1), (1, 2), (1, 3), (2, 0), (2, 1), (2, 2),
         (2, 3), (3, 1), (3, 2), (3, 3)]).nodes.node_dopant_index.getD 3 (0, 0)).1 ∨
       ((GraphOut.mk
        (get_node_features ["Yb", "Er", "Nd"] [1, 2] [(0, 1, "Yb", "s"), (1, 2, "Er", "s")])
        [(0, 0), (0, 1), (0, 2), (1, 0), (1, 1), (1, 2), (1, 3), (2, 0), (2, 1), (2, 2),
         (2, 3), (3, 1), (3, 2), (3, 3)]).nodes.node_dopant_index.getD 1 (0, 0)).1 =
          ((GraphOut.mk
        (get_node_features ["Yb", "Er", "Nd"] [1, 2] [(0, 1, "Yb", "s"), (1, 2, "Er", "s")])
        [(0, 0), (0, 1), (0, 2), (1, 0), (1, 1), (1, 2), (1, 3), (2, 0), (2, 1), (2, 2),
         (2, 3), (3, 1), (3, 2), (3, 3)]).nodes.node_dopant_index.getD 3 (0, 0)).2 ∨
       ((GraphOut.mk
        (get_node_features ["Yb", "Er", "Nd"] [1, 2] [(0, 1, "Yb", "s"), (1, 2, "Er", "s")])
        [(0, 0), (0, 1), (0, 2), (1, 0), (1, 1), (1, 2), (1, 3), (2, 0), (2, 1), (2, 2),
         (2, 3), (3, 1), (3, 2), (3, 3)]).nodes.node_dopant_index.getD 1 (0, 0)).2 =
          ((GraphOut.mk
        (get_node_features ["Yb", "Er", "Nd"] [1, 2] [(0, 1, "Yb", "s"), (1, 2, "Er", "s")])
        [(0, 0), (0, 1), (0, 2), (1, 0), (1, 1), (1, 2), (1, 3), (2, 0), (2, 1), (2, 2),
         (2, 3), (3, 1), (3, 2), (3, 3)]).nodes.node_dopant_index.getD 3 (0, 0)).1 ∨
       ((GraphOut.mk
        (get_node_features ["Yb", "Er", "Nd"] [1, 2] [(0, 1, "Yb", "s"), (1, 2, "Er", "s")])
        [(0, 0), (0, 1), (0, 2), (1, 0), (1, 1), (1, 2), (1, 3), (2, 0), (2, 1), (2, 2),
         (2, 3), (3, 1), (3, 2), (3, 3)]).nodes.node_dopant_index.getD 1 (0, 0)).2 =
          ((GraphOut.mk
        (get_node_features ["Yb", "Er", "Nd"] [1, 2] [(0, 1, "Yb", "s"), (1, 2, "Er", "s")])
        [(0, 0), (0, 1), (0, 2), (1, 0), (1, 1), (1, 2), (1, 3), (2, 0), (2, 1), (2, 2),
         (2, 3), (3, 1), (3, 2), (3, 3)]).nodes.node_dopant_index.getD 3 (0, 0)).2)) ∧
    (((1 : ℕ), (3 : ℕ)) ∈ (GraphOut.mk
        (get_node_features ["Yb", "Er", "Nd"] [1, 2] [(0, 1, "Yb", "s"), (1, 2, "Er", "s")])
        [(0, 0), (0, 1), (0, 2), (1, 0), (1, 1), (1, 2), (1, 3), (2, 0), (2, 1), (2, 2),
         (2, 3), (3, 1), (3, 2), (3, 3)]).edge_index →
      ((3 : ℕ), (1 : ℕ)) ∈ (GraphOut.mk
        (get_node_features ["Yb", "Er", "Nd"] [1, 2] [(0, 1, "Yb", "s"), (1, 2, "Er", "s")])
        [(0, 0), (0, 1), (0, 2), (1, 0), (1, 1), (1, 2), (1, 3), (2, 0), (2, 1), (2, 2),
         (2, 3), (3, 1), (3, 2), (3, 3)]).edge_index) :=
  C2_edge_rule ["Yb", "Er", "Nd"] [1, 2] [(0, 1, "Yb", "s"), (1, 2, "Er", "s")] _
    (by decide) (by decide) (by decide) 1 3 (by decide) (by decide)

/-! ## Template augmenter: properties -/

theorem arangeQ_length (lo hi inc : ℚ) :
    (arangeQ lo hi inc).length = gridLen lo hi inc := by
  rw [arangeQ, List.length_map, List.length_range]

theorem arangeQ_getD (lo hi inc : ℚ) (k : ℕ) (hk : k < gridLen lo hi inc) :
    (arangeQ lo hi inc).getD k 0 = lo + (k : ℚ) * inc := by
  rw [List.getD_eq_getElem?_getD, arangeQ, List.getElem?_map, List.getElem?_range hk]
  rfl

theorem chosenRadii_length (lo hi inc : ℚ) (nd : ℕ) (pick : ℕ → ℕ) :
    (chosenRadii lo hi inc nd pick).length = nd := by
  simp [chosenRadii, List.length_insertionSort]

/-- Splitting a `flatMap` over `range (n+1)` at its head. -/
theorem range_flatMap_succ {α : Type _} (n : ℕ) (g : ℕ → List α) :
    (List.range (n + 1)).flatMap g = g 0 ++ (List.range n).flatMap (fun t => g (t + 1)) := by
  rw [List.range_succ_eq_map, List.flatMap_cons, List.flatMap_map]

/-- Closed form of the inner subdivision loop. -/
theorem subdivFold_eq (byL : List Payload) (radii : List ℚ) (st : AugState) :
    subdivFold byL radii st =
      ⟨st.cons ++ radii.map round10,
       st.specs ++ (List.range radii.length).flatMap
         (fun t => addLayerSpecs byL (st.counter + t)),
       st.counter + radii.length⟩ := by
  induction radii generalizing st with
  | nil => simp [subdivFold]
  | cons r rs ih =>
    have h1 : subdivFold byL (r :: rs) st =
        subdivFold byL rs
          ⟨st.cons ++ [round10 r], st.specs ++ addLayerSpecs byL st.counter,
           st.counter + 1⟩ := rfl
    rw [h1, ih]
    have h2 : ∀ t, st.counter + 1 + t = st.counter + (t + 1) := fun t => by omega
    simp only [AugState.mk.injEq]
    refine ⟨by simp, ?_, by simp; omega⟩
    rw [List.length_cons, range_flatMap_succ rs.length
      (fun t => addLayerSpecs byL (st.counter + t))]
    simp only [Nat.add_zero, List.append_assoc, h2]

/-- Closed form of one iteration of the main augmentation loop. -/
theorem augLayer_eq (C : List ℚ) (inc : ℚ) (maxSub : ℕ) (d : AugDraws)
    (byL : ℕ → List Payload) (i : ℕ) (st : AugState) :
    augLayer C inc maxSub d byL i st =
      ⟨st.cons ++ ((if d.sel i then
          (chosenRadii (shellLo C i) (C.getD i 0) inc (nDivOf maxSub d i)
            (d.pick i)).map round10
        else []) ++ [C.getD i 0]),
       st.specs ++ (List.range ((if d.sel i then nDivOf maxSub d i else 0) + 1)).flatMap
         (fun t => addLayerSpecs (byL i) (st.counter + t)),
       st.counter + ((if d.sel i then nDivOf maxSub d i else 0) + 1)⟩ := by
  by_cases hs : d.sel i
  · simp only [augLayer, hs, if_true, subdivFold_eq, chosenRadii_length]
    simp only [AugState.mk.injEq]
    refine ⟨by simp, ?_, by omega⟩
    rw [List.range_succ, List.flatMap_append]
    simp [List.append_assoc]
  · simp only [augLayer, hs, if_false]
    simp only [AugState.mk.injEq]
    exact ⟨by simp, by simp [List.range_succ], rfl⟩

theorem startIdx_succ (d : AugDraws) (n : ℕ) :
    startIdx d (n + 1) = startIdx d n + kOf d n := by
  simp [startIdx, List.range_succ]

/-- Closed form of the whole augmentation loop, by induction on the number of
constraints processed. -/
theorem gsa_loop (C : List ℚ) (d : AugDraws) (byL : ℕ → List Payload) (n : ℕ) :
    (List.range n).foldl
      (fun st i => augLayer C (1/10) 3 d byL i st) ⟨[], [], 0⟩ =
      ⟨(List.range n).flatMap (fun i =>
          (if d.sel i then
            (chosenRadii (shellLo C i) (C.getD i 0) (1/10) (nDivOf 3 d i)
              (d.pick i)).map round10
          else []) ++ [C.getD i 0]),
       (List.range n).flatMap (fun i => (List.range (kOf d i)).flatMap
         (fun t => addLayerSpecs (byL i) (startIdx d i + t))),
       startIdx d n⟩ := by
  induction n with
  | zero => simp [startIdx]
  | succ n ih =>
    rw [List.range_succ, List.foldl_append, ih]
    simp only [List.foldl_cons, List.foldl_nil]
    rw [augLayer_eq]
    simp only [AugState.mk.injEq]
    refine ⟨?_, ?_, (startIdx_succ d n).symm⟩
    · rw [List.flatMap_append]
      simp
    · rw [List.flatMap_append]
      simp [kOf]

/-- Structure of `generate_single_augment`: the rebuilt constraint list is the
concatenation over original constraints of the (rounded) sub-radii followed by
the original radius, and the emitted dopant specifications replicate each
layer's payloads once per emitted sub-constraint, at consecutive renumbered
indices. -/
theorem gsa_structure (C : List ℚ) (specs : List DopantSpec) (a : ℕ) (b : ℚ)
    (d : AugDraws) :
    generate_single_augment C specs a b d =
      ((List.range C.length).flatMap (fun i =>
          (if d.sel i then
            (chosenRadii (shellLo C i) (C.getD i 0) (1/10) (nDivOf 3 d i)
              (d.pick i)).map round10
          else []) ++ [C.getD i 0]),
       (List.range C.length).flatMap (fun i => (List.range (kOf d i)).flatMap
         (fun t => addLayerSpecs (layerSpecs specs i) (startIdx d i + t)))) := by
  simp only [generate_single_augment]
  rw [gsa_loop]

/-- C10.  The `max_subdivisions` and `subdivision_increment` arguments are
dead: they are unconditionally reassigned to 3 and 0.1 before use, so the
result is the same for any argument values, given identical random draws. -/
theorem C10_parameters_ignored (C : List ℚ) (specs : List DopantSpec)
    (a a' : ℕ) (b b' : ℚ) (d : AugDraws) :
    generate_single_augment C specs a b d = generate_single_augment C specs a' b' d := rfl

theorem countP_flatMap {α β : Type _} (l : List α) (f : α → List β) (pb : β → Bool) :
    (l.flatMap f).countP pb = (l.map (fun a => (f a).countP pb)).sum := by
  induction l with
  | nil => simp
  | cons a as ih => simp [List.flatMap_cons, List.countP_append, ih]

theorem startIdx_mono (d : AugDraws) {i j : ℕ} (h : i ≤ j) :
    startIdx d i ≤ startIdx d j := by
  induction j, h using Nat.le_induction with
  | base => exact le_refl _
  | succ j hij ih =>
    have := startIdx_succ d j
    omega

/-- Sum over `range n` of a function vanishing away from one index. -/
theorem sum_map_range_single {g : ℕ → ℕ} {n i : ℕ} (hi : i < n)
    (h0 : ∀ j < n, j ≠ i → g j = 0) :
    ((List.range n).map g).sum = g i := by
  induction n with
  | zero => omega
  | succ n ih =>
    rw [List.range_succ, List.map_append, List.sum_append]
    simp only [List.map_cons, List.map_nil, List.sum_cons, List.sum_nil]
    rcases Nat.lt_succ_iff_lt_or_eq.mp hi with h | h
    · rw [ih h (fun j hj hne => h0 j (by omega) hne), h0 n (by omega) (by omega)]
      omega
    · subst h
      have hz : ((List.range i).map g).sum = 0 :=
        List.sum_eq_zero (fun x hx => by
          obtain ⟨j, hj, rfl⟩ := List.mem_map.mp hx
          have hj' : j < i := List.mem_range.mp hj
          exact h0 j (by omega) (by omega))
      omega

theorem countP_block_same (d : AugDraws) (i : ℕ) (L : List Payload) (p : Payload) :
    ((List.range (kOf d i)).flatMap
        (fun t => addLayerSpecs L (startIdx d i + t))).countP (inBlockWith d i p) =
      kOf d i * L.countP (fun q => decide (q = p)) := by
  rw [countP_flatMap]
  have hcongr : ∀ t ∈ List.range (kOf d i),
      (addLayerSpecs L (startIdx d i + t)).countP (inBlockWith d i p) =
        L.countP (fun q => decide (q = p)) := by
    intro t ht
    have ht' : t < kOf d i := List.mem_range.mp ht
    rw [addLayerSpecs, List.countP_map]
    apply List.countP_congr
    intro a _
    simp only [Function.comp_apply, inBlockWith]
    have h1 : startIdx d i ≤ startIdx d i + t := by omega
    have h2 : startIdx d i + t < startIdx d i + kOf d i := by omega
    simp [h1, h2]
  rw [List.map_congr_left hcongr]
  simp [List.map_const', Nat.smul_one_eq_cast]

theorem countP_block_other (d : AugDraws) {i i' : ℕ} (hne : i' ≠ i)
    (L : List Payload) (p : Payload) :
    ((List.range (kOf d i')).flatMap
        (fun t => addLayerSpecs L (startIdx d i' + t))).countP (inBlockWith d i p) = 0 := by
  rw [countP_flatMap]
  apply List.sum_eq_zero
  intro x hx
  obtain ⟨t, ht, rfl⟩ := List.mem_map.mp hx
  have ht' : t < kOf d i' := List.mem_range.mp ht
  rw [addLayerSpecs, List.countP_map]
  rw [List.countP_eq_zero]
  intro a _
  simp only [Function.comp_apply, inBlockWith]
  rcases Nat.lt_or_ge i' i with hlt | hge
  · have h1 : startIdx d i' + kOf d i' ≤ startIdx d i := by
      have := startIdx_succ d i'
      have := startIdx_mono d (show i' + 1 ≤ i by omega)
      omega
    have : ¬ startIdx d i ≤ startIdx d i' + t := by omega
    simp [this]
  · have hgt : i < i' := by omega
    have h1 : startIdx d i + kOf d i ≤ startIdx d i' := by
      have := startIdx_succ d i
      have := startIdx_mono d (show i + 1 ≤ i' by omega)
      omega
    have : ¬ startIdx d i' + t < startIdx d i + kOf d i := by omega
    simp [this]

theorem startIdx_eq_total (d : AugDraws) (n : ℕ) :
    startIdx d n = n + totalSubdiv d n := by
  induction n with
  | zero => simp [startIdx, totalSubdiv]
  | succ n ih =>
    have h1 := startIdx_succ d n
    have h2 : totalSubdiv d (n + 1) =
        totalSubdiv d n + (if d.sel n then nDivOf 3 d n else 0) := by
      simp [totalSubdiv, List.range_succ]
    have h3 : kOf d n = (if d.sel n then nDivOf 3 d n else 0) + 1 := rfl
    omega

/-- C9.  An augmented template has `c + (total subdivisions applied)`
constraints, and every payload originally assigned to constraint `i` appears in
the output exactly once per emitted sub-constraint of `i` (at the renumbered
indices of `i`'s block): the count of output entries carrying payload `p`
inside block `i` is the number of `i`'s sub-constraints times the original
count of `p` on constraint `i`. -/
theorem C9_augment_counts (C : List ℚ) (specs : List DopantSpec) (a : ℕ) (b : ℚ)
    (d : AugDraws) :
    (generate_single_augment C specs a b d).1.length =
      C.length + totalSubdiv d C.length ∧
    (generate_single_augment C specs a b d).2 =
      (List.range C.length).flatMap (fun i => (List.range (kOf d i)).flatMap
        (fun t => addLayerSpecs (layerSpecs specs i) (startIdx d i + t))) ∧
    (∀ i < C.length, ∀ p : Payload,
      ((generate_single_augment C specs a b d).2.countP (inBlockWith d i p)) =
        kOf d i * (layerSpecs specs i).countP (fun q => decide (q = p))) := by
  rw [gsa_structure]
  refine ⟨?_, rfl, ?_⟩
  · rw [List.length_flatMap]
    have hmap : List.map (List.length ∘ fun i =>
        (if d.sel i then
          (chosenRadii (shellLo C i) (C.getD i 0) (1/10) (nDivOf 3 d i)
            (d.pick i)).map round10
        else []) ++ [C.getD i 0]) (List.range C.length) =
        (List.range C.length).map (kOf d) := by
      apply List.map_congr_left
      intro j _
      by_cases hs : d.sel j <;>
        simp [hs, kOf, chosenRadii_length, Function.comp]
    rw [hmap]
    exact startIdx_eq_total d C.length
  · intro i hi p
    rw [countP_flatMap]
    rw [sum_map_range_single hi
      (fun j _ hne => countP_block_other d hne (layerSpecs specs j) p)]
    exact countP_block_same d i (layerSpecs specs i) p

/-- C9 witness: two constraints, the first subdivided twice; the dopant of the
first constraint appears three times (once per sub-constraint). -/
theorem C9_witness :
    ((generate_single_augment [1, 2] [(0, 1, "Yb", "8a"), (1, 2, "Er", "8a")] 3 (1/10)
        ⟨fun i => i == 0, fun _ => 1, fun _ j => j + 1⟩).2.countP
      (inBlockWith ⟨fun i => i == 0, fun _ => 1, fun _ j => j + 1⟩ 0 (1, "Yb", "8a"))) =
      kOf ⟨fun i => i == 0, fun _ => 1, fun _ j => j + 1⟩ 0 *
        (layerSpecs [(0, 1, "Yb", "8a"), (1, 2, "Er", "8a")] 0).countP
          (fun q => decide (q = (1, "Yb", "8a"))) :=
  (C9_augment_counts [1, 2] [(0, 1, "Yb", "8a"), (1, 2, "Er", "8a")] 3 (1/10)
    ⟨fun i => i == 0, fun _ => 1, fun _ j => j + 1⟩).2.2 0 (by decide) (1, "Yb", "8a")

/-- Sampled sub-radii lie in the half-open grid interval `[lo, hi)` and are
pairwise distinct when the oracle's grid indices are valid and distinct. -/
theorem chosenRadii_props (lo hi inc : ℚ) (nd : ℕ) (pick : ℕ → ℕ)
    (hlh : lo < hi) (hinc : 0 < inc)
    (hpick : ∀ j < nd, pick j < gridLen lo hi inc)
    (hinj : ∀ j1 < nd, ∀ j2 < nd, pick j1 = pick j2 → j1 = j2) :
    (∀ r ∈ chosenRadii lo hi inc nd pick, lo ≤ r ∧ r < hi) ∧
    (chosenRadii lo hi inc nd pick).Pairwise (· ≠ ·) := by
  have harange : ∀ j < nd, (arangeQ lo hi inc).getD (pick j) 0 = lo + (pick j : ℚ) * inc :=
    fun j hj => arangeQ_getD lo hi inc (pick j) (hpick j hj)
  have hbound : ∀ k : ℕ, k < gridLen lo hi inc → lo ≤ lo + k * inc ∧ lo + k * inc < hi := by
    intro k hk
    constructor
    · nlinarith [Nat.cast_nonneg (α := ℚ) k]
    · have h1 : (k : ℤ) < ⌈(hi - lo) / inc⌉ := by
        rwa [gridLen, Int.lt_toNat] at hk
      have h2 : (k : ℚ) + 1 ≤ (⌈(hi - lo) / inc⌉ : ℚ) := by exact_mod_cast h1
      have h3 : (⌈(hi - lo) / inc⌉ : ℚ) < (hi - lo) / inc + 1 := Int.ceil_lt_add_one _
      have h4 : (k : ℚ) < (hi - lo) / inc := by linarith
      have h5 := (lt_div_iff₀ hinc).mp h4
      linarith
  constructor
  · intro r hr
    have hmem : r ∈ (List.range nd).map (fun j => (arangeQ lo hi inc).getD (pick j) 0) :=
      (List.perm_insertionSort (· ≤ ·) _).mem_iff.mp hr
    obtain ⟨j, hj, rfl⟩ := List.mem_map.mp hmem
    have hj' : j < nd := List.mem_range.mp hj
    rw [harange j hj']
    exact hbound (pick j) (hpick j hj')
  · have hnodup : ((List.range nd).map
        (fun j => (arangeQ lo hi inc).getD (pick j) 0)).Pairwise (· ≠ ·) := by
      rw [List.pairwise_map]
      refine (List.pairwise_lt_range nd).imp_of_mem ?_
      intro a b ha hb hab heq
      have ha' : a < nd := List.mem_range.mp ha
      have hb' : b < nd := List.mem_range.mp hb
      rw [harange a ha', harange b hb'] at heq
      have h1 : (pick a : ℚ) * inc = (pick b : ℚ) * inc := by linarith
      have h2 : (pick a : ℚ) = (pick b : ℚ) :=
        mul_right_cancel₀ (ne_of_gt hinc) h1
      have h3 : pick a = pick b := by exact_mod_cast h2
      exact absurd (hinj a ha' b hb' h3) (by omega)
    exact hnodup.perm (List.perm_insertionSort _ _).symm (fun h => h.symm)

/-- C8.  Counterexample to strictness: `np.arange(min_radius, max_radius, inc)`
contains `min_radius` itself, so a sampled sub-radius can equal the inner
bound.  With shell radii `[1]`, a draw picking grid index 0 for shell 0 yields
the sub-radius 0, which is not strictly greater than the inner bound 0; the
augmented constraint list becomes `[0, 1]`. -/
theorem C8_counterexample :
    chosenRadii (shellLo [1] 0) (([1] : List ℚ).getD 0 0) (1/10) 1 (fun _ => 0) = [0] ∧
    ¬ shellLo [1] 0 < 0 ∧
    (0 : ℕ) < gridLen (shellLo [1] 0) (([1] : List ℚ).getD 0 0) (1/10) ∧
    generate_single_augment [1] [] 3 (1/10)
      ⟨fun _ => true, fun _ => 0, fun _ _ => 0⟩ = ([0, 1], []) := by
  have hg : gridLen (shellLo [1] 0) (([1] : List ℚ).getD 0 0) (1/10) = 10 := by
    norm_num [gridLen, shellLo]
    decide
  have hc : chosenRadii (shellLo [1] 0) (([1] : List ℚ).getD 0 0) (1/10) 1 (fun _ => 0) =
      [0] := by
    rw [chosenRadii, show List.range 1 = [0] from rfl]
    simp only [List.map_cons, List.map_nil]
    rw [arangeQ_getD _ _ _ 0 (by rw [hg]; norm_num)]
    norm_num [shellLo, List.insertionSort, List.orderedInsert]
  refine ⟨hc, by norm_num [shellLo], by rw [hg]; norm_num, ?_⟩
  rw [gsa_structure]
  simp only [Prod.mk.injEq]
  constructor
  · have hc' : chosenRadii (shellLo [1] 0) (([1] : List ℚ).getD 0 0) (1/10)
        (nDivOf 3 ⟨fun _ => true, fun _ => 0, fun _ _ => 0⟩ 0)
        ((⟨fun _ => true, fun _ => 0, fun _ _ => 0⟩ : AugDraws).pick 0) = [0] := hc
    rw [show List.range ([1] : List ℚ).length = [0] from rfl]
    simp only [List.flatMap_cons, List.flatMap_nil, List.append_nil]
    rw [if_pos trivial,
      show nDivOf 3 (⟨fun _ => true, fun _ => 0, fun _ _ => 0⟩ : AugDraws) 0 = 1 from rfl, hc]
    norm_num [round10, roundHalfEven]
  · simp [layerSpecs, addLayerSpecs]

/-- C8 (amended).  Each sampled sub-radius of a subdivided shell lies in the
half-open interval `[inner, outer)` — it can equal the inner bound since the
increment grid starts there — and the sampled radii are pairwise distinct
(`replace=False`); the stored constraint radii are these values rounded to one
decimal place (`np.round(r, 1)`, applied in `generate_single_augment`). -/
theorem C8_subradius_bounds (C : List ℚ) (d : AugDraws) (i : ℕ)
    (hlo : shellLo C i < C.getD i 0)
    (hpick : ∀ j < nDivOf 3 d i,
      d.pick i j < gridLen (shellLo C i) (C.getD i 0) (1/10))
    (hinj : ∀ j1 < nDivOf 3 d i, ∀ j2 < nDivOf 3 d i,
      d.pick i j1 = d.pick i j2 → j1 = j2) :
    (∀ r ∈ chosenRadii (shellLo C i) (C.getD i 0) (1/10) (nDivOf 3 d i) (d.pick i),
      shellLo C i ≤ r ∧ r < C.getD i 0) ∧
    (chosenRadii (shellLo C i) (C.getD i 0) (1/10) (nDivOf 3 d i) (d.pick i)).Pairwise
      (· ≠ ·) :=
  chosenRadii_props _ _ _ _ _ hlo (by norm_num) hpick hinj

/-- C8 witness: shell radii `[1]`, two sub-radii drawn at grid indices 1 and 2,
giving `[1/10, 1/5]`, both within `[0, 1)` and distinct. -/
theorem C8_witness :
    (∀ r ∈ chosenRadii (shellLo [1] 0) (([1] : List ℚ).getD 0 0) (1/10)
        (nDivOf 3 ⟨fun _ => true, fun _ => 1, fun _ j => j + 1⟩ 0)
        ((⟨fun _ => true, fun _ => 1, fun _ j => j + 1⟩ : AugDraws).pick 0),
      shellLo [1] 0 ≤ r ∧ r < ([1] : List ℚ).getD 0 0) ∧
    (chosenRadii (shellLo [1] 0) (([1] : List ℚ).getD 0 0) (1/10)
        (nDivOf 3 ⟨fun _ => true, fun _ => 1, fun _ j => j + 1⟩ 0)
        ((⟨fun _ => true, fun _ => 1, fun _ j => j + 1⟩ : AugDraws).pick 0)).Pairwise
      (· ≠ ·) :=
  C8_subradius_bounds [1] ⟨fun _ => true, fun _ => 1, fun _ j => j + 1⟩ 0
    (by norm_num [shellLo])
    (by
      intro j hj
      have hg : gridLen (shellLo [1] 0) (([1] : List ℚ).getD 0 0) (1/10) = 10 := by
        norm_num [gridLen, shellLo]
        decide
      rw [hg]
      have hj' : j < 2 := hj
      show j + 1 < 10
      omega)
    (by
      intro j1 _ j2 _ h
      have h' : j1 + 1 = j2 + 1 := h
      omega)

end NPT
